import Mathlib

/-!
# Formal model of the split-bills ledger and settlement engine

A shallow embedding, over `ℚ`, of the balance-accounting core of the
repository:

* `src/lib/settlement.ts` (shipped appended to
  `src/lib/__tests__/settlement.test.ts`): `calculateSettlements` and
  `computeGroupBalances`;
* `src/lib/balance.ts`: `recalculateUserBalance` and friends;
* `src/lib/validation.ts`: `parseAmount`;
* the HTTP route transactions that mutate expenses and payments
  (`src/unnamed/part_006`, `src/unnamed/part_004`,
  `src/app/api/groups/[id]/settlements/route.ts`).

Monetary values are decimal.js arbitrary-precision decimals in the source;
all the arithmetic the code performs on them (plus, minus, min, compare,
round-to-2dp) is exact decimal arithmetic, faithfully represented by `ℚ`.

Two decimal.js facts matter for faithfulness and are used below:

* `Decimal#isPositive()` / `isNegative()` test the stored sign `s`
  (`this.s > 0` / `this.s < 0`), and a zero produced by `new Decimal(0)`,
  `new Decimal('0')` or by default-rounded arithmetic carries sign `+1`.
  Hence a zero balance passes the `isPositive()` creditor filter.  `ℚ`
  cannot represent a negative zero, but the application never produces one
  (a `'-0'` literal never occurs and default rounding yields `+0`), so the
  creditor filter is embedded as `0 ≤ balance` and the debtor filter as
  `balance < 0`.
* `Decimal.ROUND_HALF_UP` rounds half away from zero.

JavaScript `Array#sort` is stable (ES2019); a stable sort under the
comparator `(a, b) => b.balance.cmp(a.balance)` produces the unique
stable descending-by-balance permutation, which `List.insertionSort`
with the relation `b.balance ≤ a.balance` also produces.
-/

/-- The epsilon used by the settlement loop: `new Decimal('0.01')`. -/
def eps : ℚ := 1 / 100

/-- `UserBalance` from `src/lib/settlement.ts`. -/
structure UserBalance where
  userId : String
  name : String
  balance : ℚ
deriving DecidableEq

/-- `Settlement` from `src/lib/settlement.ts`. -/
structure Settlement where
  fromUserId : String
  fromUserName : String
  toUserId : String
  toUserName : String
  amount : ℚ
deriving DecidableEq

/-- The debtor preprocessing `({ ...ub, balance: ub.balance.negated() })`:
a fresh object (the input object is not aliased) with the balance negated. -/
def negateBal (ub : UserBalance) : UserBalance :=
  ⟨ub.userId, ub.name, -ub.balance⟩

/-- `.sort((a, b) => b.balance.cmp(a.balance))`: stable descending sort
by balance (see the header comment on stability). -/
def sortByBalanceDesc (l : List UserBalance) : List UserBalance :=
  l.insertionSort (fun a b => b.balance ≤ a.balance)

/-- The creditor list of `calculateSettlements`:
`userBalances.filter((ub) => ub.balance.isPositive())`, sorted descending.
`isPositive` is sign-based, so a (positive) zero balance is kept. -/
def creditorsOf (l : List UserBalance) : List UserBalance :=
  sortByBalanceDesc (l.filter (fun ub => 0 ≤ ub.balance))

/-- The debtor list of `calculateSettlements`:
`filter((ub) => ub.balance.isNegative()).map({...ub, negated})`, sorted
descending by the (positive) working magnitude. -/
def debtorsOf (l : List UserBalance) : List UserBalance :=
  sortByBalanceDesc ((l.filter (fun ub => ub.balance < 0)).map negateBal)

/-- The greedy matching loop of `calculateSettlements`.

State: the still-active suffixes of the creditor and debtor arrays (the
two cursors).  Each iteration emits `min(creditor.balance, debtor.balance)`
from the current debtor to the current creditor, subtracts it from both,
and advances a cursor when its remaining value is `≤ eps`.

The result is `(settlements, final creditor entries, final debtor
entries)`: the last two components record every creditor/debtor entry
with the balance it holds when the loop finishes (the source mutates the
`balance` fields in place; the final creditor entries are exactly the
post-call states of the objects shared with the caller's array).

Since the transfer is the `min` of the two balances, one of the two
remaining values is exactly `0 ≤ eps` after every iteration, so at least
one cursor advances each time; `fuel = creditors.length + debtors.length`
therefore never runs out (`runSettleFuel_succ` below), and the
branch in which neither remaining value is `≤ eps` is dead for every
rational input (in the source it would loop forever re-emitting the same
transfer, but it is unreachable). -/
def runSettleFuel : Nat → List UserBalance → List UserBalance →
    List Settlement × List UserBalance × List UserBalance
  | _, [], ds => ([], [], ds)
  | _, c :: cs, [] => ([], c :: cs, [])
  | 0, cs, ds => ([], cs, ds)
  | fuel + 1, c :: cs, d :: ds =>
    let t := min c.balance d.balance
    let c1 : UserBalance := ⟨c.userId, c.name, c.balance - t⟩
    let d1 : UserBalance := ⟨d.userId, d.name, d.balance - t⟩
    let s : Settlement := ⟨d.userId, d.name, c.userId, c.name, t⟩
    if c1.balance ≤ eps then
      if d1.balance ≤ eps then
        let r := runSettleFuel fuel cs ds
        (s :: r.1, c1 :: r.2.1, d1 :: r.2.2)
      else
        let r := runSettleFuel fuel cs (d1 :: ds)
        (s :: r.1, c1 :: r.2.1, r.2.2)
    else
      if d1.balance ≤ eps then
        let r := runSettleFuel fuel (c1 :: cs) ds
        (s :: r.1, r.2.1, d1 :: r.2.2)
      else
        ([], c :: cs, d :: ds)

/-- The whole run of `calculateSettlements` on an input list. -/
def settleRun (l : List UserBalance) :
    List Settlement × List UserBalance × List UserBalance :=
  runSettleFuel ((creditorsOf l).length + (debtorsOf l).length)
    (creditorsOf l) (debtorsOf l)

/-- `calculateSettlements` from `src/lib/settlement.ts`: the emitted
settlement list. -/
def calculateSettlements (l : List UserBalance) : List Settlement :=
  (settleRun l).1

/-- The creditor entries with their final (post-loop) balances. -/
def finalCreditors (l : List UserBalance) : List UserBalance :=
  (settleRun l).2.1

/-- The caller's array after `calculateSettlements` returns.

The creditor array holds references to the caller's objects (filter and
sort copy the array, not the elements), and the loop assigns
`creditor.balance = creditor.balance.minus(transferAmount)` through those
references, so every element that passed the creditor filter ends up with
its final loop balance.  The debtor array holds fresh spread copies, so
elements with negative balance are untouched. -/
def postEntry (fcs : List UserBalance) (ub : UserBalance) : UserBalance :=
  if 0 ≤ ub.balance then
    match fcs.find? (fun c => c.userId = ub.userId) with
    | some c => ⟨ub.userId, ub.name, c.balance⟩
    | none => ub
  else ub

def calculateSettlementsPost (l : List UserBalance) : List UserBalance :=
  l.map (postEntry (finalCreditors l))

/-- Total amount a user receives in a settlement list. -/
def totalTo (u : String) (ss : List Settlement) : ℚ :=
  ((ss.filter (fun s => s.toUserId = u)).map Settlement.amount).sum

/-- Total amount a user pays in a settlement list. -/
def totalFrom (u : String) (ss : List Settlement) : ℚ :=
  ((ss.filter (fun s => s.fromUserId = u)).map Settlement.amount).sum

/-- Sum of the balances of the entries of a user-balance list that carry
the given user id. -/
def balOf (u : String) (l : List UserBalance) : ℚ :=
  ((l.filter (fun ub => ub.userId = u)).map UserBalance.balance).sum

/-- Sum of all balances of a user-balance list. -/
def sumBal (l : List UserBalance) : ℚ :=
  (l.map UserBalance.balance).sum

/-! ## The ledger (`computeGroupBalances`, `recalculateUserBalance`) -/

/-- One row of the `ExpenseShare` table. -/
structure ExpenseShare where
  userId : String
  shareAmount : ℚ
deriving DecidableEq

/-- An `Expense` with its nested shares (the shape both
`computeGroupBalances` and the routes read). -/
structure Expense where
  id : String
  payerId : String
  totalAmount : ℚ
  shares : List ExpenseShare
deriving DecidableEq

/-- A `Payment` row. -/
structure Payment where
  fromId : String
  toId : String
  amount : ℚ
deriving DecidableEq

/-- The JavaScript `Map<string, Decimal>` of `computeGroupBalances`,
as an insertion-ordered association list. -/
abbrev BalanceMap := List (String × ℚ)

/-- `Map#get`. -/
def mapGet (m : BalanceMap) (k : String) : Option ℚ :=
  (m.find? (fun p => p.1 = k)).map Prod.snd

/-- `balances.get(k) ?? new Decimal(0)`. -/
def mapGetD (m : BalanceMap) (k : String) : ℚ :=
  (mapGet m k).getD 0

/-- `Map#set`: replace the existing entry in place, or append a new one. -/
def mapSet : BalanceMap → String → ℚ → BalanceMap
  | [], k, v => [(k, v)]
  | p :: rest, k, v => if p.1 = k then (k, v) :: rest else p :: mapSet rest k v

/-- The sum of the values of the map: the net positions of all users that
appear in any transaction (absent users hold a zero balance). -/
def mapSum (m : BalanceMap) : ℚ :=
  (m.map Prod.snd).sum

/-- The expense half of `computeGroupBalances`: credit the payer with the
full amount, then debit each share in order (each step reads the current
value with `?? 0` and sets the new one). -/
def applyExpense (m : BalanceMap) (e : Expense) : BalanceMap :=
  let m1 := mapSet m e.payerId (mapGetD m e.payerId + e.totalAmount)
  e.shares.foldl
    (fun acc sh => mapSet acc sh.userId (mapGetD acc sh.userId - sh.shareAmount)) m1

/-- The payment half of `computeGroupBalances`.  Note the source reads
`fromBalance` and `toBalance` both before either write — for a payment
with `fromId === toId` the second `set` overwrites the first with a value
computed from the stale read. -/
def applyPayment (m : BalanceMap) (p : Payment) : BalanceMap :=
  let fromBalance := mapGetD m p.fromId
  let toBalance := mapGetD m p.toId
  let m1 := mapSet m p.fromId (fromBalance + p.amount)
  mapSet m1 p.toId (toBalance - p.amount)

/-- `computeGroupBalances` from `src/lib/settlement.ts`: fold all the
group's expenses, then all its payments, into an empty map. -/
def computeGroupBalances (es : List Expense) (ps : List Payment) : BalanceMap :=
  ps.foldl applyPayment (es.foldl applyExpense [])

/-- The net balance `recalculateUserBalance` (`src/lib/balance.ts`)
computes for one user from the group's full transaction set:
`expenses_paid - shares_owed + payments_sent - payments_received`. -/
def recalcNet (u : String) (es : List Expense) (ps : List Payment) : ℚ :=
  ((es.filter (fun e => e.payerId = u)).map Expense.totalAmount).sum
    - (((es.flatMap Expense.shares).filter (fun sh => sh.userId = u)).map
        ExpenseShare.shareAmount).sum
    + ((ps.filter (fun p => p.fromId = u)).map Payment.amount).sum
    - ((ps.filter (fun p => p.toId = u)).map Payment.amount).sum

/-! ## The persistent state and the mutating route transactions

The model keeps the slice of the database belonging to one group (every
query in the routes filters on the group id).  A throwing Prisma
`$transaction` discards all its writes, so a route is modelled as the
transaction body `DB → Except ApiError DB` wrapped by `runTx`, which
returns the original state on error.  Ambient concerns that cannot touch
a balance — authentication, membership authorisation, the 10-second
duplicate-payment debounce and the `paidAt` bookkeeping on shares — are
outside the model. -/

/-- A `Membership` row (with the display name of its user); named
`MembershipRow` because `Membership` is taken by a Lean core class. -/
structure MembershipRow where
  userId : String
  name : String
  netBalance : ℚ
deriving DecidableEq

/-- One group's slice of the database. -/
structure DB where
  expenses : List Expense
  payments : List Payment
  memberships : List MembershipRow
deriving DecidableEq

/-- The failures of the modelled transactions. -/
inductive ApiError
  | sharesMismatch
  | membershipNotFound
  | expenseNotFound
deriving DecidableEq

/-- `membership.update where userId_groupId`: rewrite the row of the
given user (membership rows are unique per user and group). -/
def updateNet (ms : List MembershipRow) (u : String) (v : ℚ) : List MembershipRow :=
  ms.map (fun m => if m.userId = u then ⟨m.userId, m.name, v⟩ else m)

/-- The persisted `netBalance` of a member, if the membership exists. -/
def memberNet (ms : List MembershipRow) (u : String) : Option ℚ :=
  (ms.find? (fun m => m.userId = u)).map MembershipRow.netBalance

/-- Whether a membership row exists for the user. -/
def hasMember (ms : List MembershipRow) (u : String) : Bool :=
  ms.any (fun m => m.userId = u)

/-- `parseAmount` from `src/lib/validation.ts`:
`new Decimal(value).toDecimalPlaces(2, Decimal.ROUND_HALF_UP)` — round to
2 decimal places, halves away from zero. -/
def parseAmount (q : ℚ) : ℚ :=
  (if 0 ≤ q then ((⌊q * 100 + 1 / 2⌋ : ℤ) : ℚ)
   else -((⌊-q * 100 + 1 / 2⌋ : ℤ) : ℚ)) / 100

/-- `recalculateUserBalance` from `src/lib/balance.ts`: recompute the
user's net balance from the full current transaction set and persist it
into the membership row (`membership.update` throws if the row is
absent). -/
def recalculateUserBalance (db : DB) (u : String) : Except ApiError DB :=
  if hasMember db.memberships u then
    Except.ok ⟨db.expenses, db.payments,
      updateNet db.memberships u (recalcNet u db.expenses db.payments)⟩
  else Except.error ApiError.membershipNotFound

/-- `recalculateUsersBalances`: run the single-user recompute for each id
in order. -/
def recalculateUsersBalances (db : DB) (us : List String) : Except ApiError DB :=
  us.foldlM recalculateUserBalance db

/-- Insertion into a JavaScript `Set` iterated in insertion order: keep
the first occurrence. -/
def insertUnique (l : List String) (x : String) : List String :=
  if x ∈ l then l else l ++ [x]

/-- The expense-creation request (`CreateExpenseSchema`), with the amount
strings already parsed to exact decimals and the id Prisma assigns to the
new expense made explicit.  Items, tax, dates and notes carry no balance
information and are omitted. -/
structure ExpenseReq where
  newId : String
  payerId : String
  totalAmount : ℚ
  participants : List (String × ℚ)
deriving DecidableEq

/-- The affected-user set of the expense-creation route: the payer, then
every participant, first occurrences kept. -/
def affectedList (r : ExpenseReq) : List String :=
  (r.participants.map Prod.fst).foldl insertUnique [r.payerId]

/-- The `$transaction` body of `POST /api/groups/[id]/expenses`
(`src/unnamed/part_006`): create the expense, validate that the parsed
shares sum exactly to the parsed total (`shareTotal.equals(totalAmount)`)
— a mismatch throws, rolling back every write of the transaction — create
the shares verbatim (each `parseAmount(p.shareAmount)`, never rescaled),
and recompute each affected member's balance from the full transaction
set.  The source creates the expense row before the validation throw;
since the transaction is atomic, validating first is net-effect
equivalent. -/
def expensePostTx (db : DB) (r : ExpenseReq) : Except ApiError DB :=
  let totalAmount := parseAmount r.totalAmount
  let shareTotal := (r.participants.map (fun p => parseAmount p.2)).sum
  if shareTotal ≠ totalAmount then Except.error ApiError.sharesMismatch
  else
    let newExpense : Expense :=
      ⟨r.newId, r.payerId, totalAmount,
        r.participants.map (fun p => ⟨p.1, parseAmount p.2⟩)⟩
    let db1 : DB := ⟨db.expenses ++ [newExpense], db.payments, db.memberships⟩
    recalculateUsersBalances db1 (affectedList r)

/-- Prisma `$transaction` semantics: a thrown error discards every write
of the body, so the caller observes the original state plus the error. -/
def runTx (db : DB) (r : Except ApiError DB) : DB × Option ApiError :=
  match r with
  | Except.ok db1 => (db1, none)
  | Except.error e => (db, some e)

/-- The expense-creation route: run the transaction body atomically. -/
def expensePost (db : DB) (r : ExpenseReq) : DB × Option ApiError :=
  runTx db (expensePostTx db r)

/-- The expense-update request (`UpdateExpenseSchema`): every field
optional. -/
structure ExpensePutReq where
  expenseId : String
  totalAmount : Option ℚ
  payerId : Option String
  participants : Option (List (String × ℚ))
deriving DecidableEq

/-- `expense.findUnique where id`. -/
def findExpense (es : List Expense) (eid : String) : Option Expense :=
  es.find? (fun e => e.id = eid)

/-- `expense.update`: merge the provided fields into the row. -/
def updateExpenseFields (es : List Expense) (eid : String)
    (total : Option ℚ) (payer : Option String) : List Expense :=
  es.map (fun e =>
    if e.id = eid then
      ⟨e.id, payer.getD e.payerId, total.getD e.totalAmount, e.shares⟩
    else e)

/-- `expenseShare.deleteMany` + `createMany`: replace the shares of one
expense. -/
def setShares (es : List Expense) (eid : String) (shs : List ExpenseShare) :
    List Expense :=
  es.map (fun e =>
    if e.id = eid then ⟨e.id, e.payerId, e.totalAmount, shs⟩ else e)

/-- The `$transaction` body of `PUT /api/groups/[id]/expenses/[expenseId]`
(`src/unnamed/part_004`), given the pre-fetched existing expense `ex`:
collect the affected users (old payer, old share holders, new payer and
new participants when provided), update the expense fields, and — only
when a non-empty participants list is provided — validate the new shares
against the new total (`totalAmount ?? existing.totalAmount`), throwing
on mismatch, then replace the shares verbatim; finally recompute every
affected member from the full transaction set. -/
def expensePutTx (db : DB) (r : ExpensePutReq) (ex : Expense) :
    Except ApiError DB :=
  let parsedTotal := r.totalAmount.map parseAmount
  let affected0 := (ex.shares.map ExpenseShare.userId).foldl insertUnique [ex.payerId]
  let affected1 := match r.payerId with
    | some p => insertUnique affected0 p
    | none => affected0
  let affected := match r.participants with
    | some ps => (ps.map Prod.fst).foldl insertUnique affected1
    | none => affected1
  let es1 := updateExpenseFields db.expenses r.expenseId parsedTotal r.payerId
  match r.participants with
  | some ps =>
    if ps.length > 0 then
      let newTotal := parsedTotal.getD ex.totalAmount
      let shareTotal := (ps.map (fun p => parseAmount p.2)).sum
      if shareTotal ≠ newTotal then Except.error ApiError.sharesMismatch
      else
        let es2 := setShares es1 r.expenseId
          (ps.map (fun p => ⟨p.1, parseAmount p.2⟩))
        recalculateUsersBalances ⟨es2, db.payments, db.memberships⟩ affected
    else recalculateUsersBalances ⟨es1, db.payments, db.memberships⟩ affected
  | none => recalculateUsersBalances ⟨es1, db.payments, db.memberships⟩ affected

/-- The expense-update route: 404 when the expense is absent, otherwise
the transaction body run atomically. -/
def expensePut (db : DB) (r : ExpensePutReq) : DB × Option ApiError :=
  match findExpense db.expenses r.expenseId with
  | none => (db, some ApiError.expenseNotFound)
  | some ex => runTx db (expensePutTx db r ex)

/-- The payment-creation request (`CreatePaymentSchema`). -/
structure PaymentReq where
  fromId : String
  toId : String
  amount : ℚ
deriving DecidableEq

/-- The `$transaction` body of `POST /api/groups/[id]/payments`
(`src/unnamed/part_006`, lines 370–424): create the payment row, then
update the two cached balances by a delta — read both membership rows,
write `from.netBalance + amount` and `to.netBalance - amount`, each
`if` silently skipped when the membership is absent.  No recomputation
from the transaction history happens on this path. -/
def paymentPost (db : DB) (r : PaymentReq) : DB :=
  let amount := parseAmount r.amount
  let ps1 := db.payments ++ [⟨r.fromId, r.toId, amount⟩]
  let fromM := db.memberships.find? (fun m => m.userId = r.fromId)
  let toM := db.memberships.find? (fun m => m.userId = r.toId)
  let ms1 := match fromM with
    | some m => updateNet db.memberships r.fromId (m.netBalance + amount)
    | none => db.memberships
  let ms2 := match toM with
    | some m => updateNet ms1 r.toId (m.netBalance - amount)
    | none => ms1
  ⟨db.expenses, ps1, ms2⟩

/-- `POST /api/groups/[id]/settlements` ("settle all",
`src/app/api/groups/[id]/settlements/route.ts`): compute the group
balances, build the member balance snapshot (`balances.get(id) || 0`),
run the planner, materialise every suggested settlement as a payment row,
and then overwrite every member's cached `netBalance` with the constant
`new Decimal(0)`. -/
def settleAllPost (db : DB) : DB :=
  let balances := computeGroupBalances db.expenses db.payments
  let userBalances := db.memberships.map
    (fun m => UserBalance.mk m.userId m.name (mapGetD balances m.userId))
  let ss := calculateSettlements userBalances
  let ps1 := db.payments ++ ss.map (fun s => Payment.mk s.fromUserId s.toUserId s.amount)
  let ms1 := db.memberships.map (fun m => MembershipRow.mk m.userId m.name 0)
  ⟨db.expenses, ps1, ms1⟩

/-! ## Helper lemmas about the settlement loop -/

theorem balOf_cons (u : String) (x : UserBalance) (l : List UserBalance) :
    balOf u (x :: l) = (if x.userId = u then x.balance else 0) + balOf u l := by
  by_cases h : x.userId = u <;> simp [balOf, List.filter_cons, h]

theorem totalTo_cons (u : String) (s : Settlement) (ss : List Settlement) :
    totalTo u (s :: ss) = (if s.toUserId = u then s.amount else 0) + totalTo u ss := by
  by_cases h : s.toUserId = u <;> simp [totalTo, List.filter_cons, h]

theorem totalFrom_cons (u : String) (s : Settlement) (ss : List Settlement) :
    totalFrom u (s :: ss) = (if s.fromUserId = u then s.amount else 0) + totalFrom u ss := by
  by_cases h : s.fromUserId = u <;> simp [totalFrom, List.filter_cons, h]

theorem balOf_perm {l1 l2 : List UserBalance} (h : l1.Perm l2) (u : String) :
    balOf u l1 = balOf u l2 :=
  ((h.filter _).map UserBalance.balance).sum_eq

theorem balOf_sortByBalanceDesc (u : String) (l : List UserBalance) :
    balOf u (sortByBalanceDesc l) = balOf u l :=
  balOf_perm (List.perm_insertionSort _ l) u

/-- The fuel `creditors.length + debtors.length` never runs out: the
transfer is the `min` of the two remaining values, so at least one cursor
advances per iteration; adding fuel beyond the bound does not change the
run, so the embedding computes exactly the source's loop. -/
theorem runSettleFuel_succ (fuel : Nat) :
    ∀ (cs ds : List UserBalance), cs.length + ds.length ≤ fuel →
      runSettleFuel (fuel + 1) cs ds = runSettleFuel fuel cs ds := by
  induction fuel with
  | zero =>
    intro cs ds h
    cases cs <;> cases ds <;> simp_all [runSettleFuel]
  | succ n ih =>
    intro cs ds h
    cases cs with
    | nil => simp [runSettleFuel]
    | cons c cs =>
      cases ds with
      | nil => simp [runSettleFuel]
      | cons d ds =>
        simp only [List.length_cons] at h
        by_cases hc : c.balance - min c.balance d.balance ≤ eps
        · by_cases hd : d.balance - min c.balance d.balance ≤ eps
          · simp only [runSettleFuel, hc, hd, if_true]
            rw [ih cs ds (by omega)]
          · simp only [runSettleFuel, hc, hd, if_true, if_false]
            rw [ih cs (⟨d.userId, d.name, d.balance - min c.balance d.balance⟩ :: ds)
              (by simp; omega)]
        · by_cases hd : d.balance - min c.balance d.balance ≤ eps
          · simp only [runSettleFuel, hc, hd, if_true, if_false]
            rw [ih (⟨c.userId, c.name, c.balance - min c.balance d.balance⟩ :: cs) ds
              (by simp; omega)]
          · simp only [runSettleFuel, hc, hd, if_false]

/-- Money flow, creditor side: each creditor entry finishes with its
starting balance minus everything routed to its user id. -/
theorem runSettleFuel_creditor_flow (fuel : Nat) :
    ∀ (cs ds : List UserBalance) (u : String),
      balOf u (runSettleFuel fuel cs ds).2.1 =
        balOf u cs - totalTo u (runSettleFuel fuel cs ds).1 := by
  induction fuel with
  | zero =>
    intro cs ds u
    cases cs <;> cases ds <;> simp [runSettleFuel, totalTo, balOf]
  | succ n ih =>
    intro cs ds u
    cases cs with
    | nil => simp [runSettleFuel, totalTo, balOf]
    | cons c cs =>
      cases ds with
      | nil => simp [runSettleFuel, totalTo]
      | cons d ds =>
        by_cases hc : c.balance - min c.balance d.balance ≤ eps
        · by_cases hd : d.balance - min c.balance d.balance ≤ eps
          · simp only [runSettleFuel, hc, hd, if_true]
            simp only [balOf_cons, totalTo_cons, ih]
            by_cases hcu : c.userId = u <;> simp [hcu] <;> ring
          · simp only [runSettleFuel, hc, hd, if_true, if_false]
            simp only [balOf_cons, totalTo_cons, ih]
            by_cases hcu : c.userId = u <;> simp [hcu] <;> ring
        · by_cases hd : d.balance - min c.balance d.balance ≤ eps
          · simp only [runSettleFuel, hc, hd, if_true, if_false]
            simp only [balOf_cons, totalTo_cons, ih]
            by_cases hcu : c.userId = u <;> simp [hcu] <;> ring
          · simp only [runSettleFuel, hc, hd, if_false]
            simp [totalTo]

/-- Money flow, debtor side: each debtor entry finishes with its starting
(positive) working value minus everything its user id pays. -/
theorem runSettleFuel_debtor_flow (fuel : Nat) :
    ∀ (cs ds : List UserBalance) (u : String),
      balOf u (runSettleFuel fuel cs ds).2.2 =
        balOf u ds - totalFrom u (runSettleFuel fuel cs ds).1 := by
  induction fuel with
  | zero =>
    intro cs ds u
    cases cs <;> cases ds <;> simp [runSettleFuel, totalFrom, balOf]
  | succ n ih =>
    intro cs ds u
    cases cs with
    | nil => simp [runSettleFuel, totalFrom, balOf]
    | cons c cs =>
      cases ds with
      | nil => simp [runSettleFuel, totalFrom, balOf]
      | cons d ds =>
        by_cases hc : c.balance - min c.balance d.balance ≤ eps
        · by_cases hd : d.balance - min c.balance d.balance ≤ eps
          · simp only [runSettleFuel, hc, hd, if_true]
            simp only [balOf_cons, totalFrom_cons, ih]
            by_cases hdu : d.userId = u <;> simp [hdu] <;> ring
          · simp only [runSettleFuel, hc, hd, if_true, if_false]
            simp only [balOf_cons, totalFrom_cons, ih]
            by_cases hdu : d.userId = u <;> simp [hdu] <;> ring
        · by_cases hd : d.balance - min c.balance d.balance ≤ eps
          · simp only [runSettleFuel, hc, hd, if_true, if_false]
            simp only [balOf_cons, totalFrom_cons, ih]
            by_cases hdu : d.userId = u <;> simp [hdu] <;> ring
          · simp only [runSettleFuel, hc, hd, if_false]
            simp [totalFrom]

/-- The final creditor entries carry exactly the starting creditor ids,
in order. -/
theorem runSettleFuel_creditor_ids (fuel : Nat) :
    ∀ (cs ds : List UserBalance),
      (runSettleFuel fuel cs ds).2.1.map UserBalance.userId =
        cs.map UserBalance.userId := by
  induction fuel with
  | zero => intro cs ds; cases cs <;> cases ds <;> simp [runSettleFuel]
  | succ n ih =>
    intro cs ds
    cases cs with
    | nil => simp [runSettleFuel]
    | cons c cs =>
      cases ds with
      | nil => simp [runSettleFuel]
      | cons d ds =>
        by_cases hc : c.balance - min c.balance d.balance ≤ eps
        · by_cases hd : d.balance - min c.balance d.balance ≤ eps
          · simp only [runSettleFuel, hc, hd, if_true]
            simp [ih]
          · simp only [runSettleFuel, hc, hd, if_true, if_false]
            simp [ih]
        · by_cases hd : d.balance - min c.balance d.balance ≤ eps
          · simp only [runSettleFuel, hc, hd, if_true, if_false]
            have := ih (⟨c.userId, c.name, c.balance - min c.balance d.balance⟩ :: cs) ds
            simp at this
            simp [this]
          · simp only [runSettleFuel, hc, hd, if_false]

/-- All balances stay nonnegative through the loop (the transfer is the
`min` of two nonnegative values). -/
theorem runSettleFuel_nonneg (fuel : Nat) :
    ∀ (cs ds : List UserBalance),
      (∀ x ∈ cs, 0 ≤ x.balance) → (∀ x ∈ ds, 0 ≤ x.balance) →
      (∀ x ∈ (runSettleFuel fuel cs ds).2.1, 0 ≤ x.balance) ∧
      (∀ x ∈ (runSettleFuel fuel cs ds).2.2, 0 ≤ x.balance) := by
  induction fuel with
  | zero =>
    intro cs ds h1 h2
    cases cs <;> cases ds <;> simp_all [runSettleFuel]
  | succ n ih =>
    intro cs ds h1 h2
    cases cs with
    | nil => simp_all [runSettleFuel]
    | cons c cs =>
      cases ds with
      | nil => simp_all [runSettleFuel]
      | cons d ds =>
        have hc0 : 0 ≤ c.balance := h1 c (by simp)
        have hd0 : 0 ≤ d.balance := h2 d (by simp)
        have hc1 : 0 ≤ c.balance - min c.balance d.balance := by
          have := min_le_left c.balance d.balance; linarith
        have hd1 : 0 ≤ d.balance - min c.balance d.balance := by
          have := min_le_right c.balance d.balance; linarith
        have h1t : ∀ x ∈ cs, 0 ≤ x.balance := fun x hx => h1 x (by simp [hx])
        have h2t : ∀ x ∈ ds, 0 ≤ x.balance := fun x hx => h2 x (by simp [hx])
        by_cases hc : c.balance - min c.balance d.balance ≤ eps
        · by_cases hd : d.balance - min c.balance d.balance ≤ eps
          · simp only [runSettleFuel, hc, hd, if_true]
            have := ih cs ds h1t h2t
            constructor
            · intro x hx
              rcases List.mem_cons.mp hx with h | h
              · subst h; exact hc1
              · exact this.1 x h
            · intro x hx
              rcases List.mem_cons.mp hx with h | h
              · subst h; exact hd1
              · exact this.2 x h
          · simp only [runSettleFuel, hc, hd, if_true, if_false]
            have := ih cs (⟨d.userId, d.name, d.balance - min c.balance d.balance⟩ :: ds) h1t
              (by intro x hx
                  rcases List.mem_cons.mp hx with h | h
                  · subst h; exact hd1
                  · exact h2t x h)
            constructor
            · intro x hx
              rcases List.mem_cons.mp hx with h | h
              · subst h; exact hc1
              · exact this.1 x h
            · exact this.2
        · by_cases hd : d.balance - min c.balance d.balance ≤ eps
          · simp only [runSettleFuel, hc, hd, if_true, if_false]
            have := ih (⟨c.userId, c.name, c.balance - min c.balance d.balance⟩ :: cs) ds
              (by intro x hx
                  rcases List.mem_cons.mp hx with h | h
                  · subst h; exact hc1
                  · exact h1t x h) h2t
            constructor
            · exact this.1
            · intro x hx
              rcases List.mem_cons.mp hx with h | h
              · subst h; exact hd1
              · exact this.2 x h
          · simp only [runSettleFuel, hc, hd, if_false]
            exact ⟨h1, h2⟩

/-- Each iteration emits one settlement and retires at least one entry,
so a run over nonempty creditor and debtor lists emits strictly fewer
settlements than it has entries. -/
theorem runSettleFuel_count (fuel : Nat) :
    ∀ (cs ds : List UserBalance), 1 ≤ cs.length → 1 ≤ ds.length →
      (runSettleFuel fuel cs ds).1.length + 1 ≤ cs.length + ds.length := by
  induction fuel with
  | zero =>
    intro cs ds h1 h2
    cases cs <;> cases ds <;> simp_all [runSettleFuel] <;> omega
  | succ n ih =>
    intro cs ds h1 h2
    cases cs with
    | nil => simp at h1
    | cons c cs =>
      cases ds with
      | nil => simp at h2
      | cons d ds =>
        by_cases hc : c.balance - min c.balance d.balance ≤ eps
        · by_cases hd : d.balance - min c.balance d.balance ≤ eps
          · simp only [runSettleFuel, hc, hd, if_true]
            cases cs with
            | nil =>
              cases ds <;> simp [runSettleFuel] <;> omega
            | cons c2 cs2 =>
              cases ds with
              | nil => simp [runSettleFuel]
              | cons d2 ds2 =>
                have := ih (c2 :: cs2) (d2 :: ds2) (by simp) (by simp)
                simp only [List.length_cons] at this ⊢
                omega
          · simp only [runSettleFuel, hc, hd, if_true, if_false]
            cases cs with
            | nil => simp [runSettleFuel]; omega
            | cons c2 cs2 =>
              have := ih (c2 :: cs2) (⟨d.userId, d.name, d.balance - min c.balance d.balance⟩ :: ds)
                (by simp) (by simp)
              simp only [List.length_cons] at this ⊢
              omega
        · by_cases hd : d.balance - min c.balance d.balance ≤ eps
          · simp only [runSettleFuel, hc, hd, if_true, if_false]
            cases ds with
            | nil => simp [runSettleFuel]
            | cons d2 ds2 =>
              have := ih (⟨c.userId, c.name, c.balance - min c.balance d.balance⟩ :: cs)
                (d2 :: ds2) (by simp) (by simp)
              simp only [List.length_cons] at this ⊢
              omega
          · simp only [runSettleFuel, hc, hd, if_false]
            simp
            omega

/-- Every emitted settlement flows from a debtor id to a creditor id. -/
theorem runSettleFuel_endpoints (fuel : Nat) :
    ∀ (cs ds : List UserBalance), ∀ s ∈ (runSettleFuel fuel cs ds).1,
      s.fromUserId ∈ ds.map UserBalance.userId ∧
      s.toUserId ∈ cs.map UserBalance.userId := by
  induction fuel with
  | zero =>
    intro cs ds s hs
    cases cs <;> cases ds <;> simp_all [runSettleFuel]
  | succ n ih =>
    intro cs ds s hs
    cases cs with
    | nil => simp_all [runSettleFuel]
    | cons c cs =>
      cases ds with
      | nil => simp_all [runSettleFuel]
      | cons d ds =>
        by_cases hc : c.balance - min c.balance d.balance ≤ eps
        · by_cases hd : d.balance - min c.balance d.balance ≤ eps
          · simp only [runSettleFuel, hc, hd, if_true] at hs
            rcases List.mem_cons.mp hs with h | h
            · subst h; simp
            · have := ih cs ds s h
              simp only [List.map_cons, List.mem_cons]
              exact ⟨Or.inr this.1, Or.inr this.2⟩
          · simp only [runSettleFuel, hc, hd, if_true, if_false] at hs
            rcases List.mem_cons.mp hs with h | h
            · subst h; simp
            · have := ih cs (⟨d.userId, d.name, d.balance - min c.balance d.balance⟩ :: ds) s h
              simp only [List.map_cons, List.mem_cons] at this ⊢
              exact ⟨this.1, Or.inr this.2⟩
        · by_cases hd : d.balance - min c.balance d.balance ≤ eps
          · simp only [runSettleFuel, hc, hd, if_true, if_false] at hs
            rcases List.mem_cons.mp hs with h | h
            · subst h; simp
            · have := ih (⟨c.userId, c.name, c.balance - min c.balance d.balance⟩ :: cs) ds s h
              simp only [List.map_cons, List.mem_cons] at this ⊢
              exact ⟨Or.inr this.1, this.2⟩
          · simp only [runSettleFuel, hc, hd, if_false] at hs
            simp at hs

/-- A creditor entry that starts at zero stays at zero, so everything
routed to an id whose creditor entries are all zero has amount zero. -/
theorem runSettleFuel_zero_creditor (fuel : Nat) :
    ∀ (cs ds : List UserBalance) (u : String),
      (∀ c ∈ cs, c.userId = u → c.balance = 0) →
      (∀ x ∈ ds, 0 ≤ x.balance) →
      ∀ s ∈ (runSettleFuel fuel cs ds).1, s.toUserId = u → s.amount = 0 := by
  induction fuel with
  | zero =>
    intro cs ds u hz hd0 s hs
    cases cs <;> cases ds <;> simp_all [runSettleFuel]
  | succ n ih =>
    intro cs ds u hz hd0 s hs
    cases cs with
    | nil => simp_all [runSettleFuel]
    | cons c cs =>
      cases ds with
      | nil => simp_all [runSettleFuel]
      | cons d ds =>
        have hd00 : 0 ≤ d.balance := hd0 d (by simp)
        have hzt : ∀ x ∈ cs, x.userId = u → x.balance = 0 :=
          fun x hx => hz x (by simp [hx])
        have hd0t : ∀ x ∈ ds, 0 ≤ x.balance := fun x hx => hd0 x (by simp [hx])
        by_cases hc : c.balance - min c.balance d.balance ≤ eps
        · by_cases hd : d.balance - min c.balance d.balance ≤ eps
          · simp only [runSettleFuel, hc, hd, if_true] at hs
            rcases List.mem_cons.mp hs with h | h
            · subst h
              intro htu
              have hc0 : c.balance = 0 := hz c (by simp) htu
              show min c.balance d.balance = 0
              rw [hc0]
              exact min_eq_left hd00
            · exact ih cs ds u hzt hd0t s h
          · simp only [runSettleFuel, hc, hd, if_true, if_false] at hs
            rcases List.mem_cons.mp hs with h | h
            · subst h
              intro htu
              have hc0 : c.balance = 0 := hz c (by simp) htu
              show min c.balance d.balance = 0
              rw [hc0]
              exact min_eq_left hd00
            · refine ih cs (⟨d.userId, d.name, d.balance - min c.balance d.balance⟩ :: ds) u hzt
                ?_ s h
              intro x hx
              rcases List.mem_cons.mp hx with h2 | h2
              · subst h2
                simp only
                have := min_le_right c.balance d.balance
                linarith
              · exact hd0t x h2
        · by_cases hd : d.balance - min c.balance d.balance ≤ eps
          · simp only [runSettleFuel, hc, hd, if_true, if_false] at hs
            rcases List.mem_cons.mp hs with h | h
            · subst h
              intro htu
              have hc0 : c.balance = 0 := hz c (by simp) htu
              show min c.balance d.balance = 0
              rw [hc0]
              exact min_eq_left hd00
            · refine ih (⟨c.userId, c.name, c.balance - min c.balance d.balance⟩ :: cs) ds u
                ?_ hd0t s h
              intro x hx
              rcases List.mem_cons.mp hx with h2 | h2
              · subst h2
                intro hxu
                simp only at hxu
                have hc0 : c.balance = 0 := hz c (by simp) hxu
                show c.balance - min c.balance d.balance = 0
                rw [hc0, min_eq_left hd00]
                ring
              · exact hzt x h2
          · simp only [runSettleFuel, hc, hd, if_false] at hs
            simp at hs

/-! ## Helper lemmas about the balance map -/

theorem mapGetD_set_same (m : BalanceMap) (k : String) (v : ℚ) :
    mapGetD (mapSet m k v) k = v := by
  induction m with
  | nil => simp [mapSet, mapGetD, mapGet]
  | cons p rest ih =>
    by_cases h : p.1 = k
    · simp [mapSet, h, mapGetD, mapGet]
    · simp only [mapSet, h, if_false]
      simpa [mapGetD, mapGet, List.find?, h] using ih

theorem mapGetD_set_other (m : BalanceMap) (k : String) (v : ℚ) (u : String)
    (h : u ≠ k) : mapGetD (mapSet m k v) u = mapGetD m u := by
  induction m with
  | nil => simp [mapSet, mapGetD, mapGet, List.find?, Ne.symm h]
  | cons p rest ih =>
    by_cases hp : p.1 = k
    · subst hp
      simp [mapSet, mapGetD, mapGet, List.find?, Ne.symm h]
    · simp only [mapSet, hp, if_false]
      by_cases hu : p.1 = u
      · simp [mapGetD, mapGet, List.find?, hu]
      · simpa [mapGetD, mapGet, List.find?, hu] using ih

theorem mapSum_set (m : BalanceMap) (k : String) (v : ℚ) :
    mapSum (mapSet m k v) = mapSum m - mapGetD m k + v := by
  induction m with
  | nil => simp [mapSet, mapSum, mapGetD, mapGet]
  | cons p rest ih =>
    by_cases h : p.1 = k
    · simp [mapSet, h, mapSum, mapGetD, mapGet, List.find?]
      ring
    · simp only [mapSet, h, if_false]
      simp only [mapSum, List.map_cons, List.sum_cons] at ih ⊢
      rw [ih]
      simp [mapGetD, mapGet, List.find?, h]
      ring

theorem mapSum_shareFold (shs : List ExpenseShare) :
    ∀ m : BalanceMap,
      mapSum (shs.foldl
        (fun acc sh => mapSet acc sh.userId (mapGetD acc sh.userId - sh.shareAmount)) m) =
      mapSum m - (shs.map ExpenseShare.shareAmount).sum := by
  induction shs with
  | nil => intro m; simp
  | cons sh shs ih =>
    intro m
    simp only [List.foldl_cons, List.map_cons, List.sum_cons]
    rw [ih, mapSum_set]
    ring

theorem mapSum_applyExpense (m : BalanceMap) (e : Expense)
    (h : (e.shares.map ExpenseShare.shareAmount).sum = e.totalAmount) :
    mapSum (applyExpense m e) = mapSum m := by
  simp only [applyExpense]
  rw [mapSum_shareFold, mapSum_set, h]
  ring

theorem mapSum_applyPayment (m : BalanceMap) (p : Payment)
    (h : p.fromId ≠ p.toId) :
    mapSum (applyPayment m p) = mapSum m := by
  simp only [applyPayment]
  rw [mapSum_set, mapGetD_set_other m p.fromId _ p.toId (Ne.symm h), mapSum_set]
  ring

theorem mapGetD_shareFold (shs : List ExpenseShare) :
    ∀ (m : BalanceMap) (u : String),
      mapGetD (shs.foldl
        (fun acc sh => mapSet acc sh.userId (mapGetD acc sh.userId - sh.shareAmount)) m) u =
      mapGetD m u - ((shs.filter (fun sh => sh.userId = u)).map ExpenseShare.shareAmount).sum := by
  induction shs with
  | nil => intro m u; simp
  | cons sh shs ih =>
    intro m u
    simp only [List.foldl_cons]
    rw [ih]
    by_cases h : sh.userId = u
    · subst h
      rw [mapGetD_set_same]
      simp [List.filter_cons]
      ring
    · rw [mapGetD_set_other _ _ _ u (fun hh => h hh.symm)]
      simp [List.filter_cons, h]

theorem mapGetD_applyExpense (m : BalanceMap) (e : Expense) (u : String) :
    mapGetD (applyExpense m e) u =
      mapGetD m u + (if e.payerId = u then e.totalAmount else 0)
        - ((e.shares.filter (fun sh => sh.userId = u)).map ExpenseShare.shareAmount).sum := by
  simp only [applyExpense]
  rw [mapGetD_shareFold]
  by_cases h : e.payerId = u
  · subst h
    rw [mapGetD_set_same]
    simp
  · rw [mapGetD_set_other _ _ _ u (fun hh => h hh.symm)]
    simp [h]

theorem mapGetD_applyPayment (m : BalanceMap) (p : Payment) (u : String)
    (h : p.fromId ≠ p.toId) :
    mapGetD (applyPayment m p) u =
      mapGetD m u + (if p.fromId = u then p.amount else 0)
        - (if p.toId = u then p.amount else 0) := by
  simp only [applyPayment]
  by_cases hto : p.toId = u
  · subst hto
    rw [mapGetD_set_same]
    simp [h]
  · rw [mapGetD_set_other _ _ _ u (fun hh => hto hh.symm)]
    by_cases hfrom : p.fromId = u
    · subst hfrom
      rw [mapGetD_set_same]
      simp [hto]
    · rw [mapGetD_set_other _ _ _ u (fun hh => hfrom hh.symm)]
      simp [hfrom, hto]

theorem mapGetD_expenseFold (es : List Expense) :
    ∀ (m : BalanceMap) (u : String),
      mapGetD (es.foldl applyExpense m) u =
        mapGetD m u + ((es.filter (fun e => e.payerId = u)).map Expense.totalAmount).sum
          - (((es.flatMap Expense.shares).filter (fun sh => sh.userId = u)).map
              ExpenseShare.shareAmount).sum := by
  induction es with
  | nil => intro m u; simp
  | cons e es ih =>
    intro m u
    simp only [List.foldl_cons]
    rw [ih, mapGetD_applyExpense]
    simp only [List.flatMap_cons, List.filter_append, List.map_append, List.sum_append,
      List.filter_cons]
    by_cases h : e.payerId = u <;> simp [h] <;> ring

theorem mapGetD_paymentFold (ps : List Payment) :
    ∀ (m : BalanceMap) (u : String), (∀ p ∈ ps, p.fromId ≠ p.toId) →
      mapGetD (ps.foldl applyPayment m) u =
        mapGetD m u + ((ps.filter (fun p => p.fromId = u)).map Payment.amount).sum
          - ((ps.filter (fun p => p.toId = u)).map Payment.amount).sum := by
  induction ps with
  | nil => intro m u _; simp
  | cons p ps ih =>
    intro m u h
    simp only [List.foldl_cons]
    rw [ih _ u (fun q hq => h q (by simp [hq])), mapGetD_applyPayment _ _ _ (h p (by simp))]
    simp only [List.filter_cons]
    by_cases h1 : p.fromId = u <;> by_cases h2 : p.toId = u <;> simp [h1, h2] <;> ring

/-! ## List helpers -/

theorem filter_userId_eq_singleton {l : List UserBalance}
    (h : (l.map UserBalance.userId).Nodup) {ub : UserBalance} (hm : ub ∈ l) :
    l.filter (fun x => x.userId = ub.userId) = [ub] := by
  induction l with
  | nil => simp at hm
  | cons x xs ih =>
    simp only [List.map_cons, List.nodup_cons] at h
    rcases List.mem_cons.mp hm with h1 | h1
    · subst h1
      have hnone : ∀ y ∈ xs, ¬ (y.userId = ub.userId) := by
        intro y hy heq
        exact h.1 (by simpa [heq] using List.mem_map_of_mem UserBalance.userId hy)
      have hfil : xs.filter (fun x => x.userId = ub.userId) = [] := by
        simp only [List.filter_eq_nil_iff]
        intro y hy
        simpa using hnone y hy
      simp [List.filter_cons, hfil]
    · have hx : ¬ (x.userId = ub.userId) := by
        intro heq
        exact h.1 (by simpa [heq.symm] using List.mem_map_of_mem UserBalance.userId h1)
      simp only [List.filter_cons, hx]
      simp only [decide_eq_true_eq, hx, if_false]
      exact ih h.2 h1

theorem balOf_eq_of_mem_nodup {l : List UserBalance}
    (h : (l.map UserBalance.userId).Nodup) {ub : UserBalance} (hm : ub ∈ l) :
    balOf ub.userId l = ub.balance := by
  simp [balOf, filter_userId_eq_singleton h hm]

theorem length_filter_partition (l : List UserBalance) :
    (l.filter (fun ub => 0 ≤ ub.balance)).length
      + (l.filter (fun ub => ub.balance < 0)).length = l.length := by
  induction l with
  | nil => simp
  | cons x xs ih =>
    by_cases h : 0 ≤ x.balance
    · simp [List.filter_cons, h, not_lt.mpr h, ih]
      omega
    · simp [List.filter_cons, h, lt_of_not_le h, ih]
      omega

theorem runSettleFuel_nil_right (fuel : Nat) (cs : List UserBalance) :
    (runSettleFuel fuel cs []).1 = [] := by
  cases fuel <;> cases cs <;> simp [runSettleFuel]

theorem runSettleFuel_nil_left (fuel : Nat) (ds : List UserBalance) :
    (runSettleFuel fuel [] ds).1 = [] := by
  cases fuel <;> cases ds <;> simp [runSettleFuel]

/-! ## Claim theorems: the settlement planner -/

/-- C6 (confirmed).  Greedy largest-with-largest matching on the concrete
input: balances `[A +130, B +40, C −10, D −160]` produce exactly the
three settlements `D→A 130`, `D→B 30`, `C→B 10`, in this order. -/
theorem calculateSettlements_scenario3 :
    calculateSettlements
        [⟨ "A", "A", 130 ⟩, ⟨ "B", "B", 40 ⟩, ⟨ "C", "C", -10 ⟩, ⟨ "D", "D", -160 ⟩] =
      [⟨ "D", "D", "A", "A", 130 ⟩, ⟨ "D", "D", "B", "B", 30 ⟩,
        ⟨ "C", "C", "B", "B", 10 ⟩] := by
  norm_num [calculateSettlements, settleRun, creditorsOf, debtorsOf, sortByBalanceDesc,
    negateBal, runSettleFuel, eps, List.insertionSort, List.orderedInsert, min_def]

/-- C5, counterexample.  decimal.js `isPositive()` is sign-based, so the
zero-balance member `Z` enters the creditor list and receives a
zero-amount transfer from `B`; the input has exactly one member with
non-zero balance (`N = 1`), yet one settlement is emitted, violating the
claimed `N − 1` bound. -/
theorem calculateSettlements_countBound_cex :
    (∃ ub ∈ [UserBalance.mk "Z" "Z" 0, UserBalance.mk "B" "B" (-100)], ub.balance ≠ 0) ∧
    ¬ ((calculateSettlements [UserBalance.mk "Z" "Z" 0, UserBalance.mk "B" "B" (-100)]).length ≤
        (([UserBalance.mk "Z" "Z" 0, UserBalance.mk "B" "B" (-100)]).filter
          (fun ub => ub.balance ≠ 0)).length - 1) := by
  constructor
  · exact ⟨UserBalance.mk "B" "B" (-100), by norm_num, by norm_num⟩
  · norm_num [calculateSettlements, settleRun, creditorsOf, debtorsOf, sortByBalanceDesc,
      negateBal, runSettleFuel, eps, List.insertionSort, List.orderedInsert, min_def,
      List.filter_cons]

/-- C5 as amended: at most `M − 1` transfers for `M` the total number of
members in the input (zero-balance members must be counted, because the
sign-based creditor filter admits them and they can receive zero-amount
transfers). -/
theorem calculateSettlements_count_le (l : List UserBalance) (h : l ≠ []) :
    (calculateSettlements l).length ≤ l.length - 1 := by
  have hpart := length_filter_partition l
  have hlen : 1 ≤ l.length := by
    cases l with
    | nil => exact absurd rfl h
    | cons x xs => simp
  have hc : (creditorsOf l).length = (l.filter (fun ub => 0 ≤ ub.balance)).length := by
    simp [creditorsOf, sortByBalanceDesc, List.length_insertionSort]
  have hd : (debtorsOf l).length = (l.filter (fun ub => ub.balance < 0)).length := by
    simp [debtorsOf, sortByBalanceDesc, List.length_insertionSort]
  rcases Nat.eq_zero_or_pos (creditorsOf l).length with h0 | h1
  · have : creditorsOf l = [] := List.length_eq_zero.mp h0
    simp [calculateSettlements, settleRun, this, runSettleFuel_nil_left]
  · rcases Nat.eq_zero_or_pos (debtorsOf l).length with h0d | h1d
    · have : debtorsOf l = [] := List.length_eq_zero.mp h0d
      simp [calculateSettlements, settleRun, this, runSettleFuel_nil_right]
    · have := runSettleFuel_count ((creditorsOf l).length + (debtorsOf l).length)
        (creditorsOf l) (debtorsOf l) h1 h1d
      simp only [calculateSettlements, settleRun]
      omega

/-- C8, counterexample.  On `[A +100, B −50]` the debtor side exhausts
while the creditor retains `50 > 0.01`; `calculateSettlements` signals
nothing (the source function contains no `throw` at all) and returns the
accumulated list normally, dropping the residual. -/
theorem calculateSettlements_residual_cex :
    calculateSettlements [UserBalance.mk "A" "A" 100, UserBalance.mk "B" "B" (-50)] =
      [Settlement.mk "B" "B" "A" "A" 50] ∧
    balOf "A" (finalCreditors [UserBalance.mk "A" "A" 100, UserBalance.mk "B" "B" (-50)]) = 50 ∧
    eps < 50 := by
  refine ⟨?_, ?_, by norm_num [eps]⟩ <;>
    norm_num [calculateSettlements, finalCreditors, settleRun, creditorsOf, debtorsOf,
      sortByBalanceDesc, negateBal, runSettleFuel, eps, List.insertionSort,
      List.orderedInsert, min_def, balOf, List.filter_cons]

/-- C8 as amended: `calculateSettlements` never signals an error; when
one side is empty it returns (the empty list of) accumulated settlements
normally and the other side's residual is silently dropped — in
particular, with no debtor at all, every creditor balance is dropped. -/
theorem calculateSettlements_no_debtors (l : List UserBalance)
    (h : ∀ ub ∈ l, 0 ≤ ub.balance) : calculateSettlements l = [] := by
  have hd : debtorsOf l = [] := by
    simp only [debtorsOf, sortByBalanceDesc]
    have : l.filter (fun ub => ub.balance < 0) = [] := by
      simp only [List.filter_eq_nil_iff]
      intro ub hm
      simpa using not_lt.mpr (h ub hm)
    simp [this, List.insertionSort]
  simp [calculateSettlements, settleRun, hd, runSettleFuel_nil_right]

theorem mem_creditorsOf {l : List UserBalance} {c : UserBalance} :
    c ∈ creditorsOf l ↔ c ∈ l ∧ 0 ≤ c.balance := by
  unfold creditorsOf sortByBalanceDesc
  rw [(List.perm_insertionSort _ _).mem_iff]
  simp [List.mem_filter]

theorem mem_debtorsOf {l : List UserBalance} {d : UserBalance} :
    d ∈ debtorsOf l ↔ ∃ x ∈ l, x.balance < 0 ∧ d = negateBal x := by
  unfold debtorsOf sortByBalanceDesc
  rw [(List.perm_insertionSort _ _).mem_iff]
  simp only [List.mem_map, List.mem_filter, decide_eq_true_eq]
  constructor
  · rintro ⟨x, ⟨hx, hneg⟩, rfl⟩
    exact ⟨x, hx, hneg, rfl⟩
  · rintro ⟨x, hx, hneg, rfl⟩
    exact ⟨x, ⟨hx, hneg⟩, rfl⟩

theorem debtorsOf_nonneg (l : List UserBalance) :
    ∀ d ∈ debtorsOf l, 0 ≤ d.balance := by
  intro d hd
  rcases mem_debtorsOf.mp hd with ⟨x, _, hneg, rfl⟩
  simp only [negateBal]
  linarith

theorem creditorsOf_nonneg (l : List UserBalance) :
    ∀ c ∈ creditorsOf l, 0 ≤ c.balance :=
  fun c hc => (mem_creditorsOf.mp hc).2

theorem balOf_creditorsOf (u : String) (l : List UserBalance) :
    balOf u (creditorsOf l) = balOf u (l.filter (fun ub => 0 ≤ ub.balance)) :=
  balOf_sortByBalanceDesc u _

theorem balOf_map_negateBal (u : String) (m : List UserBalance) :
    balOf u (m.map negateBal) = -balOf u m := by
  induction m with
  | nil => simp [balOf]
  | cons x xs ih =>
    by_cases h : x.userId = u <;>
      simp [balOf_cons, negateBal, h, ih] <;> ring

theorem balOf_debtorsOf (u : String) (l : List UserBalance) :
    balOf u (debtorsOf l) = -balOf u (l.filter (fun ub => ub.balance < 0)) := by
  unfold debtorsOf
  rw [balOf_sortByBalanceDesc, balOf_map_negateBal]

theorem balOf_nonneg_of_entries {m : List UserBalance}
    (h : ∀ x ∈ m, 0 ≤ x.balance) (u : String) : 0 ≤ balOf u m := by
  unfold balOf
  apply List.sum_nonneg
  intro q hq
  rcases List.mem_map.mp hq with ⟨x, hx, rfl⟩
  exact h x (List.mem_of_mem_filter hx)

theorem balOf_eq_zero_of_not_mem {m : List UserBalance} {u : String}
    (h : u ∉ m.map UserBalance.userId) : balOf u m = 0 := by
  unfold balOf
  have : m.filter (fun x => x.userId = u) = [] := by
    simp only [List.filter_eq_nil_iff]
    intro x hx heq
    exact h (by simpa using ⟨x, hx, by simpa using heq⟩)
  simp [this]

theorem find?_balOf {m : List UserBalance} {u : String}
    (h : (m.map UserBalance.userId).Nodup) (hu : u ∈ m.map UserBalance.userId) :
    ∃ e, m.find? (fun x => x.userId = u) = some e ∧ e.balance = balOf u m := by
  induction m with
  | nil => simp at hu
  | cons x xs ih =>
    simp only [List.map_cons, List.nodup_cons] at h
    by_cases hx : x.userId = u
    · refine ⟨x, by simp [List.find?_cons, hx], ?_⟩
      rw [balOf_cons]
      have : balOf u xs = 0 := balOf_eq_zero_of_not_mem (by rw [← hx]; exact h.1)
      simp [hx, this]
    · have hu2 : u ∈ xs.map UserBalance.userId := by
        rcases List.mem_cons.mp hu with h1 | h1
        · exact absurd h1.symm hx
        · exact h1
      rcases ih h.2 hu2 with ⟨e, he, hbal⟩
      refine ⟨e, ?_, ?_⟩
      · simp [List.find?_cons, hx, he]
      · rw [balOf_cons]
        simp [hx, hbal]

theorem creditorsOf_ids_nodup {l : List UserBalance}
    (h : (l.map UserBalance.userId).Nodup) :
    ((creditorsOf l).map UserBalance.userId).Nodup := by
  have hperm : (creditorsOf l).Perm (l.filter (fun ub => 0 ≤ ub.balance)) :=
    List.perm_insertionSort _ _
  refine (hperm.map UserBalance.userId).nodup_iff.mpr ?_
  exact ((List.filter_sublist l).map UserBalance.userId).nodup h

/-- The transfer totals in terms of start and end balances, at the top
level: what `u` receives is its creditor-side start minus its
creditor-side residual, and what `u` pays is its debtor-side start minus
its debtor-side residual. -/
theorem totalTo_eq (l : List UserBalance) (u : String) :
    totalTo u (calculateSettlements l) =
      balOf u (creditorsOf l) - balOf u (settleRun l).2.1 := by
  have := runSettleFuel_creditor_flow ((creditorsOf l).length + (debtorsOf l).length)
    (creditorsOf l) (debtorsOf l) u
  simp only [calculateSettlements, settleRun] at *
  linarith

theorem totalFrom_eq (l : List UserBalance) (u : String) :
    totalFrom u (calculateSettlements l) =
      balOf u (debtorsOf l) - balOf u (settleRun l).2.2 := by
  have := runSettleFuel_debtor_flow ((creditorsOf l).length + (debtorsOf l).length)
    (creditorsOf l) (debtorsOf l) u
  simp only [calculateSettlements, settleRun] at *
  linarith

/-- C3, counterexample.  The balances `[A +1.00, B −0.99, C −0.01]` sum
to zero, yet the creditor `A` receives `0.99`, not its original `1.00`:
after the first transfer `A`'s remaining `0.01 ≤ eps` advances the
creditor cursor and the loop ends with `C`'s cent undelivered. -/
theorem calculateSettlements_completeness_cex :
    sumBal [UserBalance.mk "A" "A" 1, UserBalance.mk "B" "B" (-99/100),
      UserBalance.mk "C" "C" (-1/100)] = 0 ∧
    totalTo "A" (calculateSettlements [UserBalance.mk "A" "A" 1,
      UserBalance.mk "B" "B" (-99/100), UserBalance.mk "C" "C" (-1/100)]) = 99/100 ∧
    (99/100 : ℚ) ≠ 1 := by
  refine ⟨by norm_num [sumBal], ?_, by norm_num⟩
  norm_num [totalTo, calculateSettlements, settleRun, creditorsOf, debtorsOf,
    sortByBalanceDesc, negateBal, runSettleFuel, eps, List.insertionSort,
    List.orderedInsert, min_def, List.filter_cons]

/-- C3 as amended: every creditor receives at most its original positive
balance and every debtor pays at most the absolute value of its original
negative balance (equality can fail because a remainder `≤ 0.01` is
dropped whenever a cursor advances). -/
theorem calculateSettlements_completeness_bounds (l : List UserBalance)
    (h : (l.map UserBalance.userId).Nodup) (ub : UserBalance) (hm : ub ∈ l) :
    (0 < ub.balance → totalTo ub.userId (calculateSettlements l) ≤ ub.balance) ∧
    (ub.balance < 0 → totalFrom ub.userId (calculateSettlements l) ≤ -ub.balance) := by
  constructor
  · intro hpos
    rw [totalTo_eq, balOf_creditorsOf]
    have hfil : (l.filter (fun x => 0 ≤ x.balance)).filter
        (fun x => x.userId = ub.userId) = [ub] := by
      rw [List.filter_comm, filter_userId_eq_singleton h hm]
      simp [List.filter_cons, le_of_lt hpos]
    have h1 : balOf ub.userId (l.filter (fun x => 0 ≤ x.balance)) = ub.balance := by
      simp [balOf, hfil]
    have h2 : 0 ≤ balOf ub.userId (settleRun l).2.1 := by
      apply balOf_nonneg_of_entries
      exact (runSettleFuel_nonneg _ _ _ (creditorsOf_nonneg l) (debtorsOf_nonneg l)).1
    linarith
  · intro hneg
    rw [totalFrom_eq, balOf_debtorsOf]
    have hfil : (l.filter (fun x => x.balance < 0)).filter
        (fun x => x.userId = ub.userId) = [ub] := by
      rw [List.filter_comm, filter_userId_eq_singleton h hm]
      simp [List.filter_cons, hneg]
    have h1 : balOf ub.userId (l.filter (fun x => x.balance < 0)) = ub.balance := by
      simp [balOf, hfil]
    have h2 : 0 ≤ balOf ub.userId (settleRun l).2.2 := by
      apply balOf_nonneg_of_entries
      exact (runSettleFuel_nonneg _ _ _ (creditorsOf_nonneg l) (debtorsOf_nonneg l)).2
    linarith

/-- C7, counterexample.  Scenario 5 of the spec itself: balances
`[+0.01, −0.01]` have absolute magnitude `≤ 0.01`, yet both members
appear in the (single, amount `0.01`) emitted settlement — the epsilon
governs cursor advancement, not membership in the transfer list. -/
theorem calculateSettlements_eps_member_cex :
    |(1 : ℚ)/100| ≤ 1/100 ∧
    calculateSettlements [UserBalance.mk "A" "A" (1/100),
      UserBalance.mk "B" "B" (-1/100)] = [Settlement.mk "B" "B" "A" "A" (1/100)] := by
  refine ⟨by rw [abs_of_nonneg (by norm_num : (0:ℚ) ≤ 1/100)], ?_⟩
  norm_num [calculateSettlements, settleRun, creditorsOf, debtorsOf,
    sortByBalanceDesc, negateBal, runSettleFuel, eps, List.insertionSort,
    List.orderedInsert, min_def, List.filter_cons]

/-- C7 as amended: a member with balance exactly zero never sends a
settlement, and receives one only with amount zero (a zero creditor entry
never carries value). -/
theorem calculateSettlements_zero_member (l : List UserBalance)
    (h : (l.map UserBalance.userId).Nodup) (ub : UserBalance) (hm : ub ∈ l)
    (hz : ub.balance = 0) :
    ∀ s ∈ calculateSettlements l,
      s.fromUserId ≠ ub.userId ∧ (s.toUserId = ub.userId → s.amount = 0) := by
  intro s hs
  have hs2 : s ∈ (runSettleFuel ((creditorsOf l).length + (debtorsOf l).length)
      (creditorsOf l) (debtorsOf l)).1 := hs
  constructor
  · intro heq
    have hend := runSettleFuel_endpoints _ (creditorsOf l) (debtorsOf l) s hs2
    rcases List.mem_map.mp hend.1 with ⟨d, hd, hid⟩
    rcases mem_debtorsOf.mp hd with ⟨x, hxl, hxneg, rfl⟩
    have hxid : x.userId = ub.userId := by
      simpa [negateBal, heq] using hid
    have hxmem : x ∈ l.filter (fun y => y.userId = ub.userId) :=
      List.mem_filter.mpr ⟨hxl, by simpa using hxid⟩
    rw [filter_userId_eq_singleton h hm] at hxmem
    have : x = ub := by simpa using hxmem
    subst this
    exact absurd hz (ne_of_lt hxneg)
  · refine runSettleFuel_zero_creditor _ (creditorsOf l) (debtorsOf l) ub.userId
      ?_ (debtorsOf_nonneg l) s hs2
    intro c hc hcid
    have hcl := (mem_creditorsOf.mp hc).1
    have hcmem : c ∈ l.filter (fun y => y.userId = ub.userId) :=
      List.mem_filter.mpr ⟨hcl, by simpa using hcid⟩
    rw [filter_userId_eq_singleton h hm] at hcmem
    have : c = ub := by simpa using hcmem
    subst this
    exact hz

theorem postEntry_userId (fcs : List UserBalance) (ub : UserBalance) :
    (postEntry fcs ub).userId = ub.userId := by
  unfold postEntry
  by_cases hx : 0 ≤ ub.balance
  · simp only [hx, if_true]
    cases fcs.find? (fun c => c.userId = ub.userId) <;> simp
  · simp [hx]

/-- C10 (confirmed).  After the call, an element with negative balance
still holds its original balance (the loop worked on a copy), while an
element with positive balance holds its remaining value — its original
balance minus everything the settlements route to it (elements the
cursor never reached keep their full balance, which equals that
remaining value). -/
theorem calculateSettlementsPost_mutation (l : List UserBalance)
    (h : (l.map UserBalance.userId).Nodup) (ub : UserBalance) (hm : ub ∈ l) :
    (ub.balance < 0 → balOf ub.userId (calculateSettlementsPost l) = ub.balance) ∧
    (0 < ub.balance → balOf ub.userId (calculateSettlementsPost l) =
      ub.balance - totalTo ub.userId (calculateSettlements l)) := by
  have hfil : (calculateSettlementsPost l).filter (fun x => x.userId = ub.userId) =
      [postEntry (finalCreditors l) ub] := by
    unfold calculateSettlementsPost
    rw [List.filter_map]
    have hcong : (l.filter ((fun x => x.userId = ub.userId) ∘ postEntry (finalCreditors l)))
        = l.filter (fun x => x.userId = ub.userId) := by
      apply List.filter_congr
      intro x _
      simp [postEntry_userId]
    rw [hcong, filter_userId_eq_singleton h hm]
    simp
  have hbal : balOf ub.userId (calculateSettlementsPost l) =
      (postEntry (finalCreditors l) ub).balance := by
    simp [balOf, hfil]
  constructor
  · intro hneg
    rw [hbal]
    unfold postEntry
    simp [not_le.mpr hneg]
  · intro hpos
    rw [hbal]
    have hcred : ub ∈ creditorsOf l := mem_creditorsOf.mpr ⟨hm, le_of_lt hpos⟩
    have hids : (finalCreditors l).map UserBalance.userId =
        (creditorsOf l).map UserBalance.userId := by
      unfold finalCreditors settleRun
      exact runSettleFuel_creditor_ids _ _ _
    have hnodup : ((finalCreditors l).map UserBalance.userId).Nodup := by
      rw [hids]; exact creditorsOf_ids_nodup h
    have hmemid : ub.userId ∈ (finalCreditors l).map UserBalance.userId := by
      rw [hids]; exact List.mem_map_of_mem UserBalance.userId hcred
    rcases find?_balOf hnodup hmemid with ⟨e, hfind, hebal⟩
    have hpe : (postEntry (finalCreditors l) ub).balance = e.balance := by
      unfold postEntry
      simp [le_of_lt hpos, hfind]
    rw [hpe, hebal]
    have hflow := totalTo_eq l ub.userId
    have hstart : balOf ub.userId (creditorsOf l) = ub.balance := by
      rw [balOf_creditorsOf]
      have hfil2 : (l.filter (fun x => 0 ≤ x.balance)).filter
          (fun x => x.userId = ub.userId) = [ub] := by
        rw [List.filter_comm, filter_userId_eq_singleton h hm]
        simp [List.filter_cons, le_of_lt hpos]
      simp [balOf, hfil2]
    have : balOf ub.userId (settleRun l).2.1 = balOf ub.userId (finalCreditors l) := rfl
    rw [hstart] at hflow
    rw [← this]
    linarith

/-! ## Claim theorems: the ledger -/

theorem mapSum_expenseFold (es : List Expense) :
    ∀ m : BalanceMap,
      (∀ e ∈ es, (e.shares.map ExpenseShare.shareAmount).sum = e.totalAmount) →
      mapSum (es.foldl applyExpense m) = mapSum m := by
  induction es with
  | nil => intro m _; rfl
  | cons e es ih =>
    intro m h
    simp only [List.foldl_cons]
    rw [ih _ (fun x hx => h x (by simp [hx])), mapSum_applyExpense _ _ (h e (by simp))]

theorem mapSum_paymentFold (ps : List Payment) :
    ∀ m : BalanceMap, (∀ p ∈ ps, p.fromId ≠ p.toId) →
      mapSum (ps.foldl applyPayment m) = mapSum m := by
  induction ps with
  | nil => intro m _; rfl
  | cons p ps ih =>
    intro m h
    simp only [List.foldl_cons]
    rw [ih _ (fun x hx => h x (by simp [hx])), mapSum_applyPayment _ _ (h p (by simp))]

/-- C1, counterexample.  A payment whose sender and receiver coincide
destroys money: `computeGroupBalances` reads both old balances before
either write, so the second `set` overwrites the first and the map sums
to `-amount`, far outside the `0.01` tolerance (the expense list is
empty, so the share-sum hypothesis holds vacuously). -/
theorem computeGroupBalances_selfPayment_cex :
    mapSum (computeGroupBalances [] [Payment.mk "u" "u" 5]) = -5 ∧
    ¬ |mapSum (computeGroupBalances [] [Payment.mk "u" "u" 5])| ≤ eps := by
  have h1 : mapSum (computeGroupBalances [] [Payment.mk "u" "u" 5]) = -5 := by
    norm_num [mapSum, computeGroupBalances, applyPayment, applyExpense, mapGetD,
      mapGet, mapSet]
  refine ⟨h1, ?_⟩
  rw [h1]
  rw [abs_of_nonpos (by norm_num : (-5 : ℚ) ≤ 0)]
  norm_num [eps]

/-- C1 as amended: over expenses whose shares sum to their totals and
payments whose sender and receiver differ, the balances of
`computeGroupBalances` sum to exactly zero (hence within `0.01`). -/
theorem computeGroupBalances_conservation (es : List Expense) (ps : List Payment)
    (hshares : ∀ e ∈ es, (e.shares.map ExpenseShare.shareAmount).sum = e.totalAmount)
    (hpay : ∀ p ∈ ps, p.fromId ≠ p.toId) :
    mapSum (computeGroupBalances es ps) = 0 := by
  unfold computeGroupBalances
  rw [mapSum_paymentFold ps _ hpay, mapSum_expenseFold es _ hshares]
  rfl

/-- C2, counterexample.  On the transaction set consisting of the single
self-payment `u → u` of `5`, the bulk map holds `-5` for `u` while
`recalculateUserBalance`'s formula yields `0`: the two computations
disagree. -/
theorem computeGroupBalances_recalcNet_cex :
    mapGetD (computeGroupBalances [] [Payment.mk "u" "u" 5]) "u" = -5 ∧
    recalcNet "u" [] [Payment.mk "u" "u" 5] = 0 ∧ ((-5 : ℚ) ≠ 0) := by
  refine ⟨?_, ?_, by norm_num⟩
  · norm_num [computeGroupBalances, applyPayment, applyExpense, mapGetD, mapGet, mapSet]
  · norm_num [recalcNet]

/-- C2 as amended: when every payment has distinct sender and receiver,
the bulk computation and the single-user formula agree for every user
(an absent map entry reading as zero). -/
theorem computeGroupBalances_eq_recalcNet (es : List Expense) (ps : List Payment)
    (hpay : ∀ p ∈ ps, p.fromId ≠ p.toId) (u : String) :
    mapGetD (computeGroupBalances es ps) u = recalcNet u es ps := by
  unfold computeGroupBalances recalcNet
  rw [mapGetD_paymentFold ps _ u hpay, mapGetD_expenseFold]
  have h0 : mapGetD [] u = 0 := rfl
  rw [h0]
  ring

/-! ## Helper lemmas about memberships and the route transactions -/

theorem memberNet_updateNet_same (ms : List MembershipRow) (u : String) (v : ℚ)
    (h : hasMember ms u = true) : memberNet (updateNet ms u v) u = some v := by
  induction ms with
  | nil => simp [hasMember] at h
  | cons m ms ih =>
    by_cases hm : m.userId = u
    · simp [updateNet, memberNet, List.find?_cons, hm]
    · have h2 : hasMember ms u = true := by
        simpa [hasMember, hm] using h
      simpa [updateNet, memberNet, List.find?_cons, hm] using ih h2

theorem memberNet_updateNet_other (ms : List MembershipRow) (u : String) (v : ℚ)
    (w : String) (h : w ≠ u) : memberNet (updateNet ms u v) w = memberNet ms w := by
  induction ms with
  | nil => rfl
  | cons m ms ih =>
    unfold updateNet memberNet at ih ⊢
    simp only [List.map_cons]
    by_cases hmu : m.userId = u
    · rw [if_pos hmu]
      have hw : ¬ (m.userId = w) := fun hh => h (hh.symm.trans hmu)
      rw [List.find?_cons_of_neg _ (by simpa using hw),
        List.find?_cons_of_neg _ (by simpa using hw)]
      exact ih
    · rw [if_neg hmu]
      by_cases hw2 : m.userId = w
      · rw [List.find?_cons_of_pos _ (by simpa using hw2),
          List.find?_cons_of_pos _ (by simpa using hw2)]
      · rw [List.find?_cons_of_neg _ (by simpa using hw2),
          List.find?_cons_of_neg _ (by simpa using hw2)]
        exact ih

theorem hasMember_of_find? {ms : List MembershipRow} {u : String} {m : MembershipRow}
    (h : ms.find? (fun x => x.userId = u) = some m) : hasMember ms u = true := by
  induction ms with
  | nil => simp at h
  | cons x xs ih =>
    by_cases hx : x.userId = u
    · simp [hasMember, hx]
    · rw [List.find?_cons] at h
      simp only [hx, decide_eq_true_eq] at h
      have := ih (by simpa [hx] using h)
      simpa [hasMember, hx] using this

theorem recalculateUsersBalances_nil (db : DB) :
    recalculateUsersBalances db [] = Except.ok db := rfl

theorem recalculateUsersBalances_cons (db : DB) (x : String) (xs : List String) :
    recalculateUsersBalances db (x :: xs) =
      Except.bind (recalculateUserBalance db x)
        (fun db1 => recalculateUsersBalances db1 xs) := by
  simp [recalculateUsersBalances, List.foldlM_cons, Bind.bind]

theorem recalculateUserBalance_ok {db : DB} {u : String} {db1 : DB}
    (h : recalculateUserBalance db u = Except.ok db1) :
    db1.expenses = db.expenses ∧ db1.payments = db.payments ∧
    db1.memberships = updateNet db.memberships u (recalcNet u db.expenses db.payments) ∧
    hasMember db.memberships u = true := by
  unfold recalculateUserBalance at h
  by_cases hm : hasMember db.memberships u
  · simp only [hm, if_true, Except.ok.injEq] at h
    subst h
    exact ⟨rfl, rfl, rfl, hm⟩
  · simp [hm] at h

theorem recalculateUsersBalances_parts (us : List String) :
    ∀ {db db1 : DB}, recalculateUsersBalances db us = Except.ok db1 →
      db1.expenses = db.expenses ∧ db1.payments = db.payments := by
  induction us with
  | nil =>
    intro db db1 h
    rw [recalculateUsersBalances_nil] at h
    cases h
    exact ⟨rfl, rfl⟩
  | cons x xs ih =>
    intro db db1 h
    rw [recalculateUsersBalances_cons] at h
    cases hstep : recalculateUserBalance db x with
    | error e => rw [hstep] at h; simp [Except.bind] at h
    | ok dbm =>
      rw [hstep] at h
      simp only [Except.bind] at h
      have hrest := ih h
      have hone := recalculateUserBalance_ok hstep
      exact ⟨hrest.1.trans hone.1, hrest.2.trans hone.2.1⟩

theorem recalculateUsersBalances_not_mem (us : List String) :
    ∀ {db db1 : DB}, recalculateUsersBalances db us = Except.ok db1 →
      ∀ w, w ∉ us → memberNet db1.memberships w = memberNet db.memberships w := by
  induction us with
  | nil =>
    intro db db1 h w _
    rw [recalculateUsersBalances_nil] at h
    cases h
    rfl
  | cons x xs ih =>
    intro db db1 h w hw
    rw [recalculateUsersBalances_cons] at h
    cases hstep : recalculateUserBalance db x with
    | error e => rw [hstep] at h; simp [Except.bind] at h
    | ok dbm =>
      rw [hstep] at h
      simp only [Except.bind] at h
      have hw1 : w ∉ xs := fun hh => hw (by simp [hh])
      have hwx : w ≠ x := fun hh => hw (by simp [hh])
      have hone := recalculateUserBalance_ok hstep
      rw [ih h w hw1, hone.2.2.1, memberNet_updateNet_other _ _ _ _ hwx]

theorem recalculateUsersBalances_mem (us : List String) :
    ∀ {db db1 : DB}, recalculateUsersBalances db us = Except.ok db1 →
      ∀ u ∈ us, memberNet db1.memberships u =
        some (recalcNet u db.expenses db.payments) := by
  induction us with
  | nil => intro db db1 _ u hu; simp at hu
  | cons x xs ih =>
    intro db db1 h u hu
    rw [recalculateUsersBalances_cons] at h
    cases hstep : recalculateUserBalance db x with
    | error e => rw [hstep] at h; simp [Except.bind] at h
    | ok dbm =>
      rw [hstep] at h
      simp only [Except.bind] at h
      have hone := recalculateUserBalance_ok hstep
      by_cases hmem : u ∈ xs
      · rw [ih h u hmem, hone.1, hone.2.1]
      · have hux : u = x := by
          rcases List.mem_cons.mp hu with h1 | h1
          · exact h1
          · exact absurd h1 hmem
        subst hux
        rw [recalculateUsersBalances_not_mem xs h u hmem, hone.2.2.1,
          memberNet_updateNet_same _ _ _ hone.2.2.2]

theorem mem_insertUnique (l : List String) (x w : String) :
    w ∈ insertUnique l x ↔ w ∈ l ∨ w = x := by
  unfold insertUnique
  by_cases h : x ∈ l
  · simp only [h, if_true]
    constructor
    · exact Or.inl
    · rintro (hw | rfl)
      · exact hw
      · exact h
  · simp [h]

theorem mem_foldl_insertUnique (xs : List String) :
    ∀ (acc : List String) (w : String),
      w ∈ xs.foldl insertUnique acc ↔ w ∈ acc ∨ w ∈ xs := by
  induction xs with
  | nil => intro acc w; simp
  | cons x xs ih =>
    intro acc w
    simp only [List.foldl_cons]
    rw [ih, mem_insertUnique]
    simp only [List.mem_cons]
    tauto

theorem mem_affectedList (r : ExpenseReq) (w : String) :
    w ∈ affectedList r ↔ w = r.payerId ∨ w ∈ r.participants.map Prod.fst := by
  unfold affectedList
  rw [mem_foldl_insertUnique]
  simp

/-! ## Claim theorems: the mutating routes -/

/-- C4, counterexample.  Settle-all on a group where the planner drops a
cent (expense: `A` paid `1.00`, owed `0.99` by `B` and `0.01` by `C`):
the route stores the constant `0` for `A`, but recomputing `A`'s balance
from the full post-route transaction set yields `0.01` — the persisted
value was not produced by recomputation from the transaction set. -/
theorem settleAllPost_constant_writes_cex :
    memberNet (settleAllPost (DB.mk
      [Expense.mk "e1" "A" 1 [ExpenseShare.mk "B" (99/100), ExpenseShare.mk "C" (1/100)]]
      []
      [MembershipRow.mk "A" "A" 1, MembershipRow.mk "B" "B" (-99/100),
        MembershipRow.mk "C" "C" (-1/100)])).memberships "A" = some 0 ∧
    recalcNet "A"
      (settleAllPost (DB.mk
        [Expense.mk "e1" "A" 1 [ExpenseShare.mk "B" (99/100), ExpenseShare.mk "C" (1/100)]]
        []
        [MembershipRow.mk "A" "A" 1, MembershipRow.mk "B" "B" (-99/100),
          MembershipRow.mk "C" "C" (-1/100)])).expenses
      (settleAllPost (DB.mk
        [Expense.mk "e1" "A" 1 [ExpenseShare.mk "B" (99/100), ExpenseShare.mk "C" (1/100)]]
        []
        [MembershipRow.mk "A" "A" 1, MembershipRow.mk "B" "B" (-99/100),
          MembershipRow.mk "C" "C" (-1/100)])).payments = 1/100 ∧
    (some (0 : ℚ) ≠ some (1/100 : ℚ)) := by
  have hdb : settleAllPost (DB.mk
      [Expense.mk "e1" "A" 1 [ExpenseShare.mk "B" (99/100), ExpenseShare.mk "C" (1/100)]]
      []
      [MembershipRow.mk "A" "A" 1, MembershipRow.mk "B" "B" (-99/100),
        MembershipRow.mk "C" "C" (-1/100)]) =
      DB.mk
        [Expense.mk "e1" "A" 1 [ExpenseShare.mk "B" (99/100), ExpenseShare.mk "C" (1/100)]]
        [Payment.mk "B" "A" (99/100)]
        [MembershipRow.mk "A" "A" 0, MembershipRow.mk "B" "B" 0,
          MembershipRow.mk "C" "C" 0] := by
    have h1 : computeGroupBalances
        [Expense.mk "e1" "A" 1 [ExpenseShare.mk "B" (99/100), ExpenseShare.mk "C" (1/100)]] [] =
        [("A", 1), ("B", -99/100), ("C", -1/100)] := by
      simp [computeGroupBalances, applyExpense, applyPayment, mapSet, mapGet, mapGetD,
        List.find?_cons]
      norm_num
    have h2 : calculateSettlements [UserBalance.mk "A" "A" 1,
        UserBalance.mk "B" "B" (-99/100), UserBalance.mk "C" "C" (-1/100)] =
        [Settlement.mk "B" "B" "A" "A" (99/100)] := by
      norm_num [calculateSettlements, settleRun, creditorsOf, debtorsOf, sortByBalanceDesc,
        negateBal, runSettleFuel, eps, List.insertionSort, List.orderedInsert, min_def,
        List.filter_cons]
    unfold settleAllPost
    rw [h1]
    simp [mapGetD, mapGet, List.find?_cons]
    rw [h2]
    simp
  rw [hdb]
  refine ⟨by simp [memberNet, List.find?_cons], ?_, by norm_num⟩
  simp [recalcNet, List.filter_cons, List.flatMap_cons]
  norm_num

/-- C4 as amended: expense creation recomputes every affected member's
persisted balance from the full post-transaction set via
`recalculateUserBalance`; payment creation instead applies a delta
(`netBalance ± amount`) to the previously cached value; and the
settle-all route overwrites every member's cached balance with the
constant `0`. -/
theorem balanceWritePolicies :
    (∀ (db : DB) (r : ExpenseReq) (db2 : DB), expensePost db r = (db2, none) →
      ∀ u, u = r.payerId ∨ u ∈ r.participants.map Prod.fst →
        memberNet db2.memberships u = some (recalcNet u db2.expenses db2.payments)) ∧
    (∀ (db : DB) (r : PaymentReq) (m : MembershipRow),
      db.memberships.find? (fun x => x.userId = r.fromId) = some m →
      r.fromId ≠ r.toId →
      memberNet (paymentPost db r).memberships r.fromId =
        some (m.netBalance + parseAmount r.amount)) ∧
    (∀ db : DB, ∀ m ∈ (settleAllPost db).memberships, m.netBalance = 0) := by
  refine ⟨?_, ?_, ?_⟩
  · intro db r db2 hpost u hu
    unfold expensePost runTx at hpost
    cases htx : expensePostTx db r with
    | error e => rw [htx] at hpost; simp at hpost
    | ok db3 =>
      rw [htx] at hpost
      simp only [Prod.mk.injEq] at hpost
      have hdb23 : db3 = db2 := hpost.1
      subst hdb23
      unfold expensePostTx at htx
      by_cases hval : (r.participants.map (fun p => parseAmount p.2)).sum ≠
          parseAmount r.totalAmount
      · rw [if_pos hval] at htx
        exact absurd htx (by simp)
      · rw [if_neg hval] at htx
        have hmem := recalculateUsersBalances_mem _ htx u ((mem_affectedList r u).mpr hu)
        have hparts := recalculateUsersBalances_parts _ htx
        rw [hmem]
        rw [hparts.1, hparts.2]
  · intro db r m hfind hne
    unfold paymentPost
    simp only [hfind]
    cases hto : db.memberships.find? (fun x => x.userId = r.toId) with
    | none =>
      simp only [hto]
      exact memberNet_updateNet_same _ _ _ (hasMember_of_find? hfind)
    | some m2 =>
      simp only [hto]
      rw [memberNet_updateNet_other _ _ _ _ hne]
      exact memberNet_updateNet_same _ _ _ (hasMember_of_find? hfind)
  · intro db m hm
    unfold settleAllPost at hm
    simp only [List.mem_map] at hm
    rcases hm with ⟨m0, _, rfl⟩
    rfl

/-- C9 (confirmed).  Share-sum enforcement with atomic rejection: an
expense create or update whose (2-decimal-parsed) shares do not sum
exactly to the (2-decimal-parsed) total fails with `sharesMismatch` and
leaves the database unchanged (the Prisma transaction rolls back every
write); on success the created expense stores the request's parsed
shares verbatim — nothing is ever rescaled. -/
theorem shareSum_enforced :
    (∀ (db : DB) (r : ExpenseReq),
      (r.participants.map (fun p => parseAmount p.2)).sum ≠ parseAmount r.totalAmount →
      expensePost db r = (db, some ApiError.sharesMismatch)) ∧
    (∀ (db : DB) (r : ExpensePutReq) (ex : Expense) (ps0 : List (String × ℚ)),
      findExpense db.expenses r.expenseId = some ex →
      r.participants = some ps0 → ps0 ≠ [] →
      (ps0.map (fun p => parseAmount p.2)).sum ≠
        (r.totalAmount.map parseAmount).getD ex.totalAmount →
      expensePut db r = (db, some ApiError.sharesMismatch)) ∧
    (∀ (db : DB) (r : ExpenseReq) (db2 : DB), expensePost db r = (db2, none) →
      db2.expenses = db.expenses ++
        [Expense.mk r.newId r.payerId (parseAmount r.totalAmount)
          (r.participants.map (fun p => ExpenseShare.mk p.1 (parseAmount p.2)))]) := by
  refine ⟨?_, ?_, ?_⟩
  · intro db r hval
    unfold expensePost expensePostTx runTx
    rw [if_pos hval]
  · intro db r ex ps0 hfind hps hne hval
    unfold expensePut
    rw [hfind]
    unfold expensePutTx runTx
    rw [hps]
    have hlen : ps0.length > 0 := by
      cases ps0 with
      | nil => exact absurd rfl hne
      | cons a l => simp
    simp only [hlen, if_true, if_pos hval]
  · intro db r db2 hpost
    unfold expensePost runTx at hpost
    cases htx : expensePostTx db r with
    | error e => rw [htx] at hpost; simp at hpost
    | ok db3 =>
      rw [htx] at hpost
      simp only [Prod.mk.injEq] at hpost
      have hdb23 : db3 = db2 := hpost.1
      subst hdb23
      unfold expensePostTx at htx
      by_cases hval : (r.participants.map (fun p => parseAmount p.2)).sum ≠
          parseAmount r.totalAmount
      · rw [if_pos hval] at htx
        exact absurd htx (by simp)
      · rw [if_neg hval] at htx
        exact (recalculateUsersBalances_parts _ htx).1

/-! ## Witnesses -/

theorem computeGroupBalances_conservation_witness :
    mapSum (computeGroupBalances [Expense.mk "e1" "A" 1 [ExpenseShare.mk "B" 1]]
      [Payment.mk "B" "A" 1]) = 0 :=
  computeGroupBalances_conservation _ _ (by simp) (by simp)

theorem computeGroupBalances_eq_recalcNet_witness :
    mapGetD (computeGroupBalances [] [Payment.mk "B" "A" 2]) "B" =
      recalcNet "B" [] [Payment.mk "B" "A" 2] :=
  computeGroupBalances_eq_recalcNet [] [Payment.mk "B" "A" 2] (by simp) "B"

theorem calculateSettlements_completeness_bounds_witness :
    totalTo "A" (calculateSettlements [UserBalance.mk "A" "A" 130,
      UserBalance.mk "D" "D" (-130)]) ≤ 130 :=
  (calculateSettlements_completeness_bounds _ (by simp) (UserBalance.mk "A" "A" 130)
    (by simp)).1 (by norm_num)

theorem balanceWritePolicies_witness :
    memberNet (paymentPost
      (DB.mk [] [] [MembershipRow.mk "A" "A" 5, MembershipRow.mk "B" "B" 0])
      (PaymentReq.mk "A" "B" 2)).memberships "A" = some ((5 : ℚ) + parseAmount 2) :=
  balanceWritePolicies.2.1 _ _ (MembershipRow.mk "A" "A" 5)
    (by simp [List.find?_cons]) (by simp)

theorem calculateSettlements_count_le_witness :
    (calculateSettlements [UserBalance.mk "A" "A" 1]).length ≤
      ([UserBalance.mk "A" "A" 1] : List UserBalance).length - 1 :=
  calculateSettlements_count_le _ (by simp)

theorem calculateSettlements_zero_member_witness :
    (Settlement.mk "B" "B" "Z" "Z" 0).fromUserId ≠ (UserBalance.mk "Z" "Z" 0).userId ∧
    ((Settlement.mk "B" "B" "Z" "Z" 0).toUserId = (UserBalance.mk "Z" "Z" 0).userId →
      (Settlement.mk "B" "B" "Z" "Z" 0).amount = 0) :=
  calculateSettlements_zero_member
    [UserBalance.mk "Z" "Z" 0, UserBalance.mk "B" "B" (-100)] (by simp)
    (UserBalance.mk "Z" "Z" 0) (by simp) rfl (Settlement.mk "B" "B" "Z" "Z" 0)
    (by
      have h : calculateSettlements [UserBalance.mk "Z" "Z" 0,
          UserBalance.mk "B" "B" (-100)] = [Settlement.mk "B" "B" "Z" "Z" 0] := by
        norm_num [calculateSettlements, settleRun, creditorsOf, debtorsOf,
          sortByBalanceDesc, negateBal, runSettleFuel, eps, List.insertionSort,
          List.orderedInsert, min_def, List.filter_cons]
      rw [h]
      simp)

theorem calculateSettlements_no_debtors_witness :
    calculateSettlements [UserBalance.mk "A" "A" 3] = [] :=
  calculateSettlements_no_debtors _ (by norm_num)

theorem shareSum_enforced_witness :
    expensePost (DB.mk [] [] []) (ExpenseReq.mk "e" "A" 1 [("A", 1/2)]) =
      (DB.mk [] [] [], some ApiError.sharesMismatch) :=
  shareSum_enforced.1 _ _ (by norm_num [parseAmount])

theorem calculateSettlementsPost_mutation_witness :
    balOf "A" (calculateSettlementsPost [UserBalance.mk "A" "A" 100,
      UserBalance.mk "B" "B" (-100)]) =
      100 - totalTo "A" (calculateSettlements [UserBalance.mk "A" "A" 100,
        UserBalance.mk "B" "B" (-100)]) :=
  (calculateSettlementsPost_mutation _ (by simp) (UserBalance.mk "A" "A" 100)
    (by simp)).2 (by norm_num)
